import Mathlib

/-!
Verification of the nuclaw tiered memory engine (`src/memory.rs`).

Shallow embedding of the tiered memory engine: `HotMemory` (bounded LRU
cache), the warm and cold durable stores (modelled as lists of table rows),
and the `TieredMemory` facade (`remember`, `recall`, `search`, `maintain`).

Modelling conventions:
* Timestamps (`timestamp`, `accessed_at`, `archived_at`) are integer epoch
  seconds.  The Rust code stores RFC3339 strings and parses them back;
  parsing is abstracted as always succeeding, and `chrono` duration
  comparisons become integer comparisons at second granularity.
* The Rust `HashMap` is modelled as an association list (`cache`); the
  `VecDeque` recency order as a list with the front at the head.  HashMap
  iteration order is unspecified in Rust, so the list order of `cache`
  stands in for one arbitrary iteration order.
* `uuid::Uuid::new_v4()` is abstracted as an explicit `freshId` argument.
* SQLite is modelled as a list of rows per table.  `INSERT OR REPLACE`
  removes rows conflicting on any unique column before inserting.  Columns
  holding serialized data (`priority` as its display string, `tags`) are
  kept as in the schema.  Read-side database errors are not modelled
  (reads from a list always succeed); write-side durable-store errors are
  modelled by an explicit environment `DbEnv` that decides, per write
  operation, whether the underlying engine reports a failure.
-/

/-- One day in seconds (`chrono::Duration::days(1)`). -/
def daySecs : Int := 86400

/-- Lower-casing, modelling Rust `str::to_lowercase` (ASCII-adequately). -/
def lower (s : String) : String := String.mk (s.data.map Char.toLower)

/-- `charsMatch needle hay`: `needle` is an initial segment of `hay`. -/
def charsMatch : List Char → List Char → Bool
  | [], _ => true
  | _ :: _, [] => false
  | a :: as, b :: bs => a == b && charsMatch as bs

/-- `charsContain needle hay`: `needle` occurs contiguously in `hay`. -/
def charsContain (needle : List Char) : List Char → Bool
  | [] => charsMatch needle []
  | b :: bs => charsMatch needle (b :: bs) || charsContain needle bs

/-- Substring test, modelling Rust `str::contains` / SQL `LIKE %q%`. -/
def strContains (hay q : String) : Bool := charsContain q.data hay.data

/-- Memory tier levels (`MemoryTier`). -/
inductive MemoryTier where
  | Hot
  | Warm
  | Cold
deriving DecidableEq

/-- Priority levels (`Priority`). -/
inductive Priority where
  | Critical
  | High
  | Normal
  | Low
deriving DecidableEq

/-- `impl Display for Priority`. -/
def Priority.toStr : Priority → String
  | .Critical => "critical"
  | .High => "high"
  | .Normal => "normal"
  | .Low => "low"

/-- `Priority::from_str`: unknown strings fall back to `Normal`. -/
def Priority.from_str (s : String) : Priority :=
  if s = "critical" then .Critical
  else if s = "high" then .High
  else if s = "normal" then .Normal
  else if s = "low" then .Low
  else .Normal

/-- `TieredMemoryEntry`. -/
structure TieredMemoryEntry where
  id : String
  key : String
  content : String
  tier : MemoryTier
  priority : Priority
  timestamp : Int
  accessed_at : Int
  access_count : Nat
  session_id : Option String
  tags : List String
deriving DecidableEq

/-- `TieredMemoryEntry::new` (`uuid` abstracted as `freshId`). -/
def TieredMemoryEntry.new (now : Int) (freshId key content : String)
    (priority : Priority) : TieredMemoryEntry :=
  { id := freshId, key := key, content := content, tier := .Hot,
    priority := priority, timestamp := now, accessed_at := now,
    access_count := 1, session_id := none, tags := [] }

/-- `TieredMemoryEntry::should_promote_to_warm`: age strictly above the
hard-coded 7 days (the Rust code does not consult the `MigrationPolicy`). -/
def should_promote_to_warm (now : Int) (e : TieredMemoryEntry) : Bool :=
  decide (7 * daySecs < now - e.timestamp)

/-- `TieredMemoryEntry::should_archive_to_cold`: hard-coded 30 days. -/
def should_archive_to_cold (now : Int) (e : TieredMemoryEntry) : Bool :=
  decide (30 * daySecs < now - e.timestamp)

/-- `MigrationPolicy`. -/
structure MigrationPolicy where
  hot_to_warm_days : Int
  warm_to_cold_days : Int
  max_hot_entries : Nat
deriving DecidableEq

/-- `MigrationPolicy::default`. -/
def MigrationPolicy.defaultPolicy : MigrationPolicy :=
  { hot_to_warm_days := 7, warm_to_cold_days := 30, max_hot_entries := 1000 }

/-- `MaintenanceReport`. -/
structure MaintenanceReport where
  hot_to_warm_migrated : Nat
  warm_to_cold_migrated : Nat
  cold_to_warm_promoted : Nat
  hot_evicted : Nat
  total_hot : Nat
  total_warm : Nat
  total_cold : Nat
deriving DecidableEq

/-- `HotMemory`: the in-process LRU cache.  `cache` models the
`HashMap<String, TieredMemoryEntry>`, `access_order` the `VecDeque<String>`
(front = least recently used). -/
structure HotMemory where
  cache : List (String × TieredMemoryEntry)
  access_order : List String
  max_entries : Nat
deriving DecidableEq

/-- `HotMemory::new`. -/
def HotMemory.new (max : Nat) : HotMemory :=
  { cache := [], access_order := [], max_entries := max }

/-- `HashMap::get` on the association-list model. -/
def mapLookup (k : String) : List (String × TieredMemoryEntry) →
    Option TieredMemoryEntry
  | [] => none
  | p :: rest => if p.1 = k then some p.2 else mapLookup k rest

/-- `HashMap::remove` on the association-list model. -/
def mapErase (k : String) (l : List (String × TieredMemoryEntry)) :
    List (String × TieredMemoryEntry) :=
  l.filter (fun p => decide (p.1 ≠ k))

/-- `VecDeque::retain(|x| x != k)`. -/
def orderErase (k : String) (o : List String) : List String :=
  o.filter (fun x => decide (x ≠ k))

/-- `HotMemory::get`: on hit, return a clone and move the key to the
most-recently-used end; on miss, leave everything untouched.  The entry
itself is not modified (no `accessed_at`/`access_count` update). -/
def HotMemory.get (k : String) (s : HotMemory) :
    Option TieredMemoryEntry × HotMemory :=
  match mapLookup k s.cache with
  | none => (none, s)
  | some e => (some e, { s with access_order := orderErase k s.access_order ++ [k] })

/-- The `while cache.len() >= max` eviction loop inside `HotMemory::store`:
pop the front of the recency order and remove that key from the cache,
until the cache is below capacity or the order queue is exhausted. -/
def evictLoop (max : Nat) : List String → List (String × TieredMemoryEntry) →
    List String × List (String × TieredMemoryEntry)
  | [], cache => ([], cache)
  | oldest :: rest, cache =>
    if max ≤ cache.length then evictLoop max rest (mapErase oldest cache)
    else (oldest :: rest, cache)

/-- `HotMemory::store`: evict while at/over capacity, then insert-or-replace
by the entry's key and move that key to the most-recently-used end. -/
def HotMemory.store (e : TieredMemoryEntry) (s : HotMemory) : HotMemory :=
  let oc := evictLoop s.max_entries s.access_order s.cache
  { s with cache := (e.key, e) :: mapErase e.key oc.2,
           access_order := orderErase e.key oc.1 ++ [e.key] }

/-- `HotMemory::remove`. -/
def HotMemory.remove (k : String) (s : HotMemory) : Bool × HotMemory :=
  ((mapLookup k s.cache).isSome,
   { s with cache := mapErase k s.cache, access_order := orderErase k s.access_order })

/-- `HotMemory::get_all`: snapshot of the values (iteration order arbitrary). -/
def HotMemory.get_all (s : HotMemory) : List TieredMemoryEntry :=
  s.cache.map Prod.snd

/-- `HotMemory::get_entries_for_promotion`. -/
def HotMemory.get_entries_for_promotion (now : Int) (s : HotMemory) :
    List TieredMemoryEntry :=
  s.get_all.filter (fun e =>
    should_promote_to_warm now e && decide (e.priority ≠ Priority.Critical))

/-- `HotMemory::count`. -/
def HotMemory.count (s : HotMemory) : Nat := s.cache.length

/-- `HotMemory::search`: case-insensitive substring match, truncated. -/
def HotMemory.search (q : String) (limit : Nat) (s : HotMemory) :
    List TieredMemoryEntry :=
  (s.get_all.filter (fun e => strContains (lower e.content) (lower q))).take limit

/-- One row of the `warm_memories` table (`priority` stored as a string,
`tags` kept as the deserialized list). -/
structure WarmRow where
  id : String
  key : String
  content : String
  priority : String
  timestamp : Int
  accessed_at : Int
  access_count : Nat
  session_id : Option String
  tags : List String
deriving DecidableEq

/-- The column values `WarmMemory::store` writes for an entry. -/
def warmRowOfEntry (e : TieredMemoryEntry) : WarmRow :=
  { id := e.id, key := e.key, content := e.content, priority := e.priority.toStr,
    timestamp := e.timestamp, accessed_at := e.accessed_at,
    access_count := e.access_count, session_id := e.session_id, tags := e.tags }

/-- How warm reads rebuild a `TieredMemoryEntry` from a row
(tier relabelled `Warm`, priority re-parsed from its string). -/
def entryOfWarmRow (r : WarmRow) : TieredMemoryEntry :=
  { id := r.id, key := r.key, content := r.content, tier := .Warm,
    priority := .from_str r.priority, timestamp := r.timestamp,
    accessed_at := r.accessed_at, access_count := r.access_count,
    session_id := r.session_id, tags := r.tags }

/-- `WarmMemory::get` (the `key` column is UNIQUE; `query_row` returns the
first match). -/
def warm_get (k : String) (rows : List WarmRow) : Option TieredMemoryEntry :=
  (rows.find? (fun r => decide (r.key = k))).map entryOfWarmRow

/-- `WarmMemory::store`: `INSERT OR REPLACE` with `id` PRIMARY KEY and
`key` UNIQUE — rows conflicting on either column are replaced. -/
def warm_store (row : WarmRow) (rows : List WarmRow) : List WarmRow :=
  row :: rows.filter (fun r => decide (r.id ≠ row.id) && decide (r.key ≠ row.key))

/-- `WarmMemory::delete` (the state part; the returned `bool` is discarded
by every caller modelled here). -/
def warm_delete (k : String) (rows : List WarmRow) : List WarmRow :=
  rows.filter (fun r => decide (r.key ≠ k))

/-- The rows selected by `WarmMemory::get_entries_for_archival`
(`timestamp < datetime('now', '-30 days')`). -/
def warm_archival_rows (now : Int) (rows : List WarmRow) : List WarmRow :=
  rows.filter (fun r => decide (r.timestamp < now - 30 * daySecs))

/-- `WarmMemory::get_entries_for_archival`. -/
def warm_get_entries_for_archival (now : Int) (rows : List WarmRow) :
    List TieredMemoryEntry :=
  (warm_archival_rows now rows).map entryOfWarmRow

/-- `WarmMemory::search` (`LIKE %q%` modelled case-insensitively, `LIMIT`). -/
def warm_search (q : String) (limit : Nat) (rows : List WarmRow) :
    List TieredMemoryEntry :=
  ((rows.filter (fun r => strContains (lower r.content) (lower q))).take limit).map
    entryOfWarmRow

/-- `WarmMemory::count`. -/
def warm_count (rows : List WarmRow) : Nat := rows.length

/-- One row of the `cold_memories` table (`key` is NOT unique here). -/
structure ColdRow where
  id : String
  key : String
  content : String
  priority : String
  timestamp : Int
  archived_at : Int
  session_id : Option String
  tags : List String
deriving DecidableEq

/-- The column values `ColdMemory::archive` writes (`archived_at` is the
archival time; `accessed_at` and `access_count` are not stored). -/
def coldRowOfEntry (now : Int) (e : TieredMemoryEntry) : ColdRow :=
  { id := e.id, key := e.key, content := e.content, priority := e.priority.toStr,
    timestamp := e.timestamp, archived_at := now,
    session_id := e.session_id, tags := e.tags }

/-- How cold reads rebuild an entry: `accessed_at` read from the
`archived_at` column, `access_count` reported as 0. -/
def entryOfColdRow (r : ColdRow) : TieredMemoryEntry :=
  { id := r.id, key := r.key, content := r.content, tier := .Cold,
    priority := .from_str r.priority, timestamp := r.timestamp,
    accessed_at := r.archived_at, access_count := 0,
    session_id := r.session_id, tags := r.tags }

/-- `ColdMemory::get` (first row matching the key). -/
def cold_get (k : String) (rows : List ColdRow) : Option TieredMemoryEntry :=
  (rows.find? (fun r => decide (r.key = k))).map entryOfColdRow

/-- `ColdMemory::archive`: `INSERT OR REPLACE` with only `id` PRIMARY KEY. -/
def cold_archive (now : Int) (e : TieredMemoryEntry) (rows : List ColdRow) :
    List ColdRow :=
  coldRowOfEntry now e :: rows.filter (fun r => decide (r.id ≠ e.id))

/-- `ColdMemory::search`. -/
def cold_search (q : String) (limit : Nat) (rows : List ColdRow) :
    List TieredMemoryEntry :=
  ((rows.filter (fun r => strContains (lower r.content) (lower q))).take limit).map
    entryOfColdRow

/-- `ColdMemory::count`. -/
def cold_count (rows : List ColdRow) : Nat := rows.length

/-- A durable-store error (`NuClawError::Database`). -/
structure DbErr where
  message : String
deriving DecidableEq

/-- Environment deciding which durable write operations fail.  The Rust
code's `conn.execute(...)` may fail for reasons external to the program
state; this environment is the shallow embedding of that possibility. -/
structure DbEnv where
  warmStoreFail : WarmRow → Option DbErr
  warmDeleteFail : String → Option DbErr
  coldArchiveFail : ColdRow → Option DbErr

/-- The environment in which every durable write succeeds. -/
def noFault : DbEnv :=
  { warmStoreFail := fun _ => none, warmDeleteFail := fun _ => none,
    coldArchiveFail := fun _ => none }

/-- `TieredMemory`: the facade state. -/
structure TieredMemory where
  hot : HotMemory
  warm : List WarmRow
  cold : List ColdRow
  policy : MigrationPolicy

/-- `TieredMemory::remember`.  The Rust code calls `hot.get` twice on the
update path (once for `is_some`, once for `unwrap`), each refreshing
recency; both calls are modelled.  The inner `none` branch is unreachable
(`get` never changes the cache), matching the `unwrap`. -/
def TieredMemory.remember (now : Int) (freshId k content : String)
    (priority : Priority) (st : TieredMemory) : TieredMemory :=
  match HotMemory.get k st.hot with
  | (some _, h1) =>
    match HotMemory.get k h1 with
    | (some e, h2) =>
      let e2 := { e with content := content, accessed_at := now,
                         access_count := e.access_count + 1 }
      { st with hot := HotMemory.store e2 h2 }
    | (none, h2) => { st with hot := h2 }
  | (none, h1) =>
    { st with hot := HotMemory.store (TieredMemoryEntry.new now freshId k content priority) h1 }

/-- `TieredMemory::recall`: hot, then warm, then cold; a colder hit is
copied into hot with its tier relabelled `Hot`, without deleting the
source-tier copy. -/
def TieredMemory.recall (k : String) (st : TieredMemory) :
    Option TieredMemoryEntry × TieredMemory :=
  match HotMemory.get k st.hot with
  | (some e, h1) => (some e, { st with hot := h1 })
  | (none, h1) =>
    match warm_get k st.warm with
    | some e =>
      let promoted := { e with tier := MemoryTier.Hot }
      (some promoted, { st with hot := HotMemory.store promoted h1 })
    | none =>
      match cold_get k st.cold with
      | some e =>
        let promoted := { e with tier := MemoryTier.Hot }
        (some promoted, { st with hot := HotMemory.store promoted h1 })
      | none => (none, st)

/-- `TieredMemory::search`: hot, then warm and cold only while fewer than
`limit` results have accumulated; no deduplication. -/
def TieredMemory.search (q : String) (limit : Nat) (st : TieredMemory) :
    List TieredMemoryEntry :=
  let r1 := HotMemory.search q limit st.hot
  let r2 := if r1.length < limit then r1 ++ warm_search q (limit - r1.length) st.warm
            else r1
  if r2.length < limit then r2 ++ cold_search q (limit - r2.length) st.cold
  else r2

/-- The hot→warm loop of `maintain`: for each eligible entry, store it
(tier relabelled `Warm`) into the warm tier, then remove it from hot and
bump the counter; a failing warm store aborts immediately, leaving the
current entry unmigrated and everything before it migrated. -/
def hotToWarmLoop (env : DbEnv) : List TieredMemoryEntry → HotMemory →
    List WarmRow → Nat → Option DbErr × HotMemory × List WarmRow × Nat
  | [], h, w, n => (none, h, w, n)
  | e :: rest, h, w, n =>
    let row := warmRowOfEntry { e with tier := MemoryTier.Warm }
    match env.warmStoreFail row with
    | some err => (some err, h, w, n)
    | none =>
      hotToWarmLoop env rest (HotMemory.remove e.key h).2 (warm_store row w) (n + 1)

/-- The warm→cold loop of `maintain`: archive to cold, then delete from
warm, then bump the counter; the first failing write aborts. -/
def warmToColdLoop (env : DbEnv) (now : Int) : List TieredMemoryEntry →
    List WarmRow → List ColdRow → Nat →
    Option DbErr × List WarmRow × List ColdRow × Nat
  | [], w, c, n => (none, w, c, n)
  | e :: rest, w, c, n =>
    match env.coldArchiveFail (coldRowOfEntry now e) with
    | some err => (some err, w, c, n)
    | none =>
      match env.warmDeleteFail e.key with
      | some err => (some err, w, cold_archive now e c, n)
      | none =>
        warmToColdLoop env now rest (warm_delete e.key w) (cold_archive now e c) (n + 1)

/-- `TieredMemory::maintain`: promote eligible hot entries to warm, then
archive eligible warm rows to cold, then report.  On the first failing
durable write the error is returned and the partial state stands. -/
def TieredMemory.maintain (env : DbEnv) (now : Int) (st : TieredMemory) :
    Except DbErr MaintenanceReport × TieredMemory :=
  let toPromote := HotMemory.get_entries_for_promotion now st.hot
  match hotToWarmLoop env toPromote st.hot st.warm 0 with
  | (some err, h1, w1, _) => (Except.error err, { st with hot := h1, warm := w1 })
  | (none, h1, w1, n1) =>
    let toArchive := warm_get_entries_for_archival now w1
    match warmToColdLoop env now toArchive w1 st.cold 0 with
    | (some err, w2, c2, _) =>
      (Except.error err, { st with hot := h1, warm := w2, cold := c2 })
    | (none, w2, c2, n2) =>
      (Except.ok
        { hot_to_warm_migrated := n1, warm_to_cold_migrated := n2,
          cold_to_warm_promoted := 0, hot_evicted := 0,
          total_hot := h1.count, total_warm := warm_count w2,
          total_cold := cold_count c2 },
       { st with hot := h1, warm := w2, cold := c2 })

/-- Modelled from the spec: the spec's description of
`get_entries_for_promotion` — "entries whose age exceeds
`hot_to_warm_days` and whose priority is not Critical" — as a function of
the `MigrationPolicy`, for refinement comparison with the source
definition (which ignores the policy). -/
def specPromotionEntries (policy : MigrationPolicy) (now : Int) (s : HotMemory) :
    List TieredMemoryEntry :=
  s.get_all.filter (fun e =>
    decide (policy.hot_to_warm_days * daySecs < now - e.timestamp) &&
    decide (e.priority ≠ Priority.Critical))

/-- One hot-tier operation, for stating the capacity invariant over
arbitrary interleavings. -/
inductive HotOp where
  | opStore (e : TieredMemoryEntry)
  | opGet (k : String)
  | opRemove (k : String)

/-- Apply one hot-tier operation (result values discarded). -/
def runOp (s : HotMemory) : HotOp → HotMemory
  | .opStore e => HotMemory.store e s
  | .opGet k => (HotMemory.get k s).2
  | .opRemove k => (HotMemory.remove k s).2

/-- Apply a sequence of hot-tier operations. -/
def runOps (ops : List HotOp) (s : HotMemory) : HotMemory :=
  ops.foldl runOp s

/-- The `cache` maps each key to an entry carrying that key — an invariant
of every state the Rust code can build, since `store` always inserts under
`entry.key`. -/
def keyConsistent (s : HotMemory) : Prop :=
  ∀ p ∈ s.cache, p.2.key = p.1

/-- Structural invariant of `HotMemory`: no duplicate cache keys, no
duplicate recency records, and the recency order tracks exactly the cached
keys. -/
def hotWf (s : HotMemory) : Prop :=
  (s.cache.map Prod.fst).Nodup ∧ s.access_order.Nodup ∧
    ∀ k, k ∈ s.access_order ↔ k ∈ s.cache.map Prod.fst

/-- A hot entry whose creation time is 8 days before time 0, priority
Normal. -/
def entryEightDaysNormal : TieredMemoryEntry :=
  { id := "id_n", key := "kn", content := "cn", tier := .Hot, priority := .Normal,
    timestamp := -8 * daySecs, accessed_at := -8 * daySecs, access_count := 1,
    session_id := none, tags := [] }

/-- An otherwise-identical entry with priority Critical. -/
def entryEightDaysCritical : TieredMemoryEntry :=
  { entryEightDaysNormal with id := "id_c", key := "kc", priority := .Critical }

/-- A hot tier holding the two 8-day-old entries. -/
def hotEightDays : HotMemory :=
  { cache := [("kn", entryEightDaysNormal), ("kc", entryEightDaysCritical)],
    access_order := ["kn", "kc"], max_entries := 10 }

/-- A migration policy with a 9-day hot-to-warm threshold. -/
def policyNineDays : MigrationPolicy :=
  { hot_to_warm_days := 9, warm_to_cold_days := 30, max_hot_entries := 10 }

/-- An entry already read five times, last touched at time 100. -/
def entryFiveReads : TieredMemoryEntry :=
  { id := "id5", key := "k5", content := "c5", tier := .Hot, priority := .Normal,
    timestamp := 100, accessed_at := 100, access_count := 5,
    session_id := none, tags := [] }

/-- A hot tier holding `entryFiveReads`. -/
def hotFiveReads : HotMemory :=
  { cache := [("k5", entryFiveReads)], access_order := ["k5"], max_entries := 10 }

/-- A concrete entry keyed k1. -/
def entryK1 : TieredMemoryEntry :=
  { id := "i1", key := "k1", content := "c1", tier := .Hot, priority := .Normal,
    timestamp := 0, accessed_at := 0, access_count := 1, session_id := none,
    tags := [] }

/-- A concrete entry keyed k2. -/
def entryK2 : TieredMemoryEntry := { entryK1 with id := "i2", key := "k2" }

/-- A concrete entry keyed k3. -/
def entryK3 : TieredMemoryEntry := { entryK1 with id := "i3", key := "k3" }

/-- A warm row keyed kw. -/
def warmRowKW : WarmRow :=
  { id := "iw", key := "kw", content := "cw", priority := "high",
    timestamp := 0, accessed_at := 0, access_count := 3, session_id := none,
    tags := [] }

/-- A cold row keyed kc. -/
def coldRowKC : ColdRow :=
  { id := "ic", key := "kc", content := "cc", priority := "low",
    timestamp := 0, archived_at := 50, session_id := none, tags := [] }

/-- A facade state with an empty hot tier, one warm row and one cold row. -/
def tieredWarmCold : TieredMemory :=
  { hot := HotMemory.new 1000, warm := [warmRowKW], cold := [coldRowKC],
    policy := MigrationPolicy.defaultPolicy }

/-- The warm entry as promoted into hot by `recall`. -/
def promotedKW : TieredMemoryEntry :=
  { entryOfWarmRow warmRowKW with tier := MemoryTier.Hot }

/-- The cold entry as promoted into hot by `recall`. -/
def promotedKC : TieredMemoryEntry :=
  { entryOfColdRow coldRowKC with tier := MemoryTier.Hot }

/-- A hot tier with two entries whose content matches the query a. -/
def hotTwoMatches : HotMemory :=
  { cache := [("k1", { entryK1 with content := "abc" }),
              ("k2", { entryK2 with content := "xaz" })],
    access_order := ["k1", "k2"], max_entries := 10 }

/-- A facade state for the search witness. -/
def tieredTwoMatches : TieredMemory :=
  { hot := hotTwoMatches, warm := [warmRowKW], cold := [coldRowKC],
    policy := MigrationPolicy.defaultPolicy }

/-- The hot tier after the promotion phase of a fault-free `maintain`. -/
def promoteFoldHot (now : Int) (st : TieredMemory) : HotMemory :=
  (HotMemory.get_entries_for_promotion now st.hot).foldl
    (fun hh x => (HotMemory.remove x.key hh).2) st.hot

/-- The warm rows after the promotion phase of a fault-free `maintain`. -/
def promoteFoldWarm (now : Int) (st : TieredMemory) : List WarmRow :=
  (HotMemory.get_entries_for_promotion now st.hot).foldl
    (fun ww x => warm_store (warmRowOfEntry { x with tier := MemoryTier.Warm }) ww)
    st.warm

/-- The archival batch computed by `maintain` after its promotion phase. -/
def archiveList (now : Int) (st : TieredMemory) : List TieredMemoryEntry :=
  warm_get_entries_for_archival now (promoteFoldWarm now st)

/-- The warm rows after a full fault-free `maintain`. -/
def afterWarm (now : Int) (st : TieredMemory) : List WarmRow :=
  (archiveList now st).foldl (fun ww x => warm_delete x.key ww)
    (promoteFoldWarm now st)

/-- The cold rows after a full fault-free `maintain`. -/
def afterCold (now : Int) (st : TieredMemory) : List ColdRow :=
  (archiveList now st).foldl (fun cc x => cold_archive now x cc) st.cold

def oldWarmRow : WarmRow :=
  { id := "iow", key := "kow", content := "cow", priority := "normal",
    timestamp := -40 * daySecs, accessed_at := -40 * daySecs, access_count := 2,
    session_id := none, tags := [] }

def tieredForMaintain : TieredMemory :=
  { hot := hotEightDays, warm := [oldWarmRow], cold := [],
    policy := MigrationPolicy.defaultPolicy }

/-- The report produced by the second of two back-to-back maintenance
passes over `tieredForMaintain`. -/
def secondMaintainReport : MaintenanceReport :=
  { hot_to_warm_migrated := 0, warm_to_cold_migrated := 0,
    cold_to_warm_promoted := 0, hot_evicted := 0,
    total_hot := 1, total_warm := 1, total_cold := 1 }

/-- A second promotion-eligible entry, keyed kl with priority Low. -/
def entryEightDaysLow : TieredMemoryEntry :=
  { entryEightDaysNormal with id := "id_l", key := "kl", priority := .Low }

/-- A hot tier with two promotion-eligible entries. -/
def hotTwoEligible : HotMemory :=
  { cache := [("kn", entryEightDaysNormal), ("kl", entryEightDaysLow)],
    access_order := ["kn", "kl"], max_entries := 10 }

/-- A facade state whose hot tier holds two promotion-eligible entries. -/
def tieredTwoEligible : TieredMemory :=
  { hot := hotTwoEligible, warm := [], cold := [coldRowKC],
    policy := MigrationPolicy.defaultPolicy }

/-- An environment in which the warm store of the row keyed kl fails. -/
def failOnKlEnv : DbEnv :=
  { warmStoreFail := fun r =>
      if r.key = "kl" then some { message := "disk full" } else none,
    warmDeleteFail := fun _ => none, coldArchiveFail := fun _ => none }

lemma mem_orderErase {j k : String} {o : List String} :
    j ∈ orderErase k o ↔ j ∈ o ∧ j ≠ k := by
  simp [orderErase]

lemma nodup_orderErase {k : String} {o : List String} (h : o.Nodup) :
    (orderErase k o).Nodup :=
  h.filter _

lemma mem_keys_mapErase {j k : String} {l : List (String × TieredMemoryEntry)} :
    j ∈ (mapErase k l).map Prod.fst ↔ j ∈ l.map Prod.fst ∧ j ≠ k := by
  simp only [mapErase, List.mem_map, List.mem_filter, decide_eq_true_eq]
  constructor
  · rintro ⟨a, ⟨ha, hne⟩, rfl⟩
    exact ⟨⟨a, ha, rfl⟩, hne⟩
  · rintro ⟨⟨a, ha, rfl⟩, hne⟩
    exact ⟨a, ⟨ha, hne⟩, rfl⟩

lemma nodup_keys_mapErase {k : String} {l : List (String × TieredMemoryEntry)}
    (h : (l.map Prod.fst).Nodup) : ((mapErase k l).map Prod.fst).Nodup :=
  (((List.filter_sublist l).map Prod.fst)).nodup h

lemma mapErase_length_le {k : String} {l : List (String × TieredMemoryEntry)} :
    (mapErase k l).length ≤ l.length :=
  List.length_filter_le _ _

lemma mapLookup_mem {k : String} {e : TieredMemoryEntry} :
    ∀ {l : List (String × TieredMemoryEntry)}, mapLookup k l = some e → (k, e) ∈ l := by
  intro l
  induction l with
  | nil => intro h; simp [mapLookup] at h
  | cons p rest ih =>
    intro h
    rw [mapLookup] at h
    by_cases hp : p.1 = k
    · rw [if_pos hp] at h
      obtain ⟨a, b⟩ := p
      obtain rfl : a = k := hp
      obtain rfl : b = e := by injection h
      exact List.mem_cons_self _ _
    · rw [if_neg hp] at h
      exact List.mem_cons_of_mem _ (ih h)

lemma evictLoop_wf (max : Nat) (order : List String) :
    ∀ cache : List (String × TieredMemoryEntry),
      (cache.map Prod.fst).Nodup → order.Nodup →
      (∀ k, k ∈ order ↔ k ∈ cache.map Prod.fst) →
      ((evictLoop max order cache).2.map Prod.fst).Nodup ∧
      (evictLoop max order cache).1.Nodup ∧
      (∀ k, k ∈ (evictLoop max order cache).1 ↔
        k ∈ (evictLoop max order cache).2.map Prod.fst) ∧
      ((evictLoop max order cache).2.length < max ∨ (evictLoop max order cache).1 = []) := by
  induction order with
  | nil =>
    intro cache hc ho hm
    rw [evictLoop]
    exact ⟨hc, List.nodup_nil, hm, Or.inr rfl⟩
  | cons oldest rest ih =>
    intro cache hc ho hm
    have hrest : rest.Nodup := (List.nodup_cons.mp ho).2
    have hnotin : oldest ∉ rest := (List.nodup_cons.mp ho).1
    by_cases hlen : max ≤ cache.length
    · rw [evictLoop, if_pos hlen]
      apply ih
      · exact nodup_keys_mapErase hc
      · exact hrest
      · intro k
        rw [mem_keys_mapErase, ← hm]
        constructor
        · intro hk
          refine ⟨List.mem_cons_of_mem _ hk, ?_⟩
          rintro rfl
          exact hnotin hk
        · rintro ⟨hk, hne⟩
          rcases List.mem_cons.mp hk with rfl | hk
          · exact absurd rfl hne
          · exact hk
    · rw [evictLoop, if_neg hlen]
      exact ⟨hc, ho, hm, Or.inl (Nat.lt_of_not_le hlen)⟩

lemma store_wf_count (e : TieredMemoryEntry) (s : HotMemory) (hwf : hotWf s) :
    hotWf (HotMemory.store e s) ∧
    (HotMemory.store e s).max_entries = s.max_entries ∧
    (1 ≤ s.max_entries → (HotMemory.store e s).cache.length ≤ s.max_entries) := by
  obtain ⟨hc, ho, hm⟩ := hwf
  obtain ⟨hc', ho', hm', hsize⟩ :=
    evictLoop_wf s.max_entries s.access_order s.cache hc ho hm
  have hlen2 : (evictLoop s.max_entries s.access_order s.cache).2.length < s.max_entries ∨
      (evictLoop s.max_entries s.access_order s.cache).2 = [] := by
    rcases hsize with h | h
    · exact Or.inl h
    · right
      have hkeys : (evictLoop s.max_entries s.access_order s.cache).2.map Prod.fst = [] := by
        rw [List.eq_nil_iff_forall_not_mem]
        intro k hk
        rw [← hm'] at hk
        rw [h] at hk
        exact (List.not_mem_nil k) hk
      exact List.map_eq_nil_iff.mp hkeys
  refine ⟨⟨?_, ?_, ?_⟩, rfl, ?_⟩
  · rw [HotMemory.store]
    simp only [List.map_cons]
    refine List.nodup_cons.mpr ⟨?_, nodup_keys_mapErase hc'⟩
    intro hmem
    exact (mem_keys_mapErase.mp hmem).2 rfl
  · rw [HotMemory.store]
    simp only
    refine List.Nodup.append (nodup_orderErase ho') (List.nodup_singleton _) ?_
    intro x hx hx'
    rw [List.mem_singleton] at hx'
    exact (mem_orderErase.mp hx).2 hx'
  · intro k
    rw [HotMemory.store]
    simp only [List.mem_append, List.mem_singleton, List.map_cons, List.mem_cons]
    rw [mem_orderErase, mem_keys_mapErase, hm']
    tauto
  · intro hmax
    rw [HotMemory.store]
    simp only [List.length_cons]
    have h1 : (mapErase e.key (evictLoop s.max_entries s.access_order s.cache).2).length ≤
        (evictLoop s.max_entries s.access_order s.cache).2.length := mapErase_length_le
    rcases hlen2 with h | h
    · omega
    · rw [h]
      simp only [mapErase, List.filter_nil, List.length_nil]
      omega

lemma get_wf (k : String) (s : HotMemory) (hwf : hotWf s) :
    hotWf (HotMemory.get k s).2 ∧ (HotMemory.get k s).2.cache = s.cache ∧
    (HotMemory.get k s).2.max_entries = s.max_entries := by
  obtain ⟨hc, ho, hm⟩ := hwf
  rw [HotMemory.get]
  cases hlk : mapLookup k s.cache with
  | none => exact ⟨⟨hc, ho, hm⟩, rfl, rfl⟩
  | some e =>
    have hkmem : k ∈ s.cache.map Prod.fst :=
      List.mem_map.mpr ⟨(k, e), mapLookup_mem hlk, rfl⟩
    refine ⟨⟨hc, ?_, ?_⟩, rfl, rfl⟩
    · refine List.Nodup.append (nodup_orderErase ho) (List.nodup_singleton _) ?_
      intro x hx hx'
      rw [List.mem_singleton] at hx'
      exact (mem_orderErase.mp hx).2 hx'
    · intro j
      simp only [List.mem_append, List.mem_singleton]
      rw [mem_orderErase, hm]
      constructor
      · rintro (⟨hj, _⟩ | rfl)
        · exact hj
        · exact hkmem
      · intro hj
        by_cases hjk : j = k
        · exact Or.inr hjk
        · exact Or.inl ⟨hj, hjk⟩

lemma remove_wf (k : String) (s : HotMemory) (hwf : hotWf s) :
    hotWf (HotMemory.remove k s).2 ∧
    (HotMemory.remove k s).2.cache.length ≤ s.cache.length ∧
    (HotMemory.remove k s).2.max_entries = s.max_entries := by
  obtain ⟨hc, ho, hm⟩ := hwf
  rw [HotMemory.remove]
  refine ⟨⟨nodup_keys_mapErase hc, nodup_orderErase ho, ?_⟩, mapErase_length_le, rfl⟩
  intro j
  rw [mem_orderErase, mem_keys_mapErase, hm]

lemma runOps_inv (C : Nat) (hC : 1 ≤ C) (ops : List HotOp) :
    ∀ s : HotMemory, hotWf s → s.cache.length ≤ C → s.max_entries = C →
      hotWf (runOps ops s) ∧ (runOps ops s).cache.length ≤ C ∧
        (runOps ops s).max_entries = C := by
  induction ops with
  | nil => intro s h1 h2 h3; exact ⟨h1, h2, h3⟩
  | cons op rest ih =>
    intro s h1 h2 h3
    rw [runOps, List.foldl_cons]
    cases op with
    | opStore e =>
      obtain ⟨hw, hmax, hcount⟩ := store_wf_count e s h1
      exact ih (HotMemory.store e s) hw (by rw [← h3]; exact hcount (h3 ▸ hC))
        (hmax.trans h3)
    | opGet k =>
      obtain ⟨hw, hcache, hmax⟩ := get_wf k s h1
      exact ih ((HotMemory.get k s).2) hw (by rw [hcache]; exact h2) (hmax.trans h3)
    | opRemove k =>
      obtain ⟨hw, hlen, hmax⟩ := remove_wf k s h1
      exact ih ((HotMemory.remove k s).2) hw (hlen.trans h2) (hmax.trans h3)

lemma get_of_lookup_none {k : String} {s : HotMemory}
    (h : mapLookup k s.cache = none) : HotMemory.get k s = (none, s) := by
  rw [HotMemory.get, h]

lemma get_of_lookup_some {k : String} {s : HotMemory} {e : TieredMemoryEntry}
    (h : mapLookup k s.cache = some e) :
    HotMemory.get k s =
      (some e, { s with access_order := orderErase k s.access_order ++ [k] }) := by
  rw [HotMemory.get, h]

lemma mapLookup_store_self (e : TieredMemoryEntry) (s : HotMemory) :
    mapLookup e.key (HotMemory.store e s).cache = some e := by
  rw [HotMemory.store]
  simp only
  rw [mapLookup]
  simp

lemma mapLookup_store_key (k : String) (e : TieredMemoryEntry) (s : HotMemory)
    (h : e.key = k) : mapLookup k (HotMemory.store e s).cache = some e := by
  subst h
  exact mapLookup_store_self e s

lemma noFault_warmStore (r : WarmRow) : noFault.warmStoreFail r = none := rfl

lemma noFault_warmDelete (k : String) : noFault.warmDeleteFail k = none := rfl

lemma noFault_coldArchive (r : ColdRow) : noFault.coldArchiveFail r = none := rfl

lemma hotToWarmLoop_noFault (l : List TieredMemoryEntry) :
    ∀ (h : HotMemory) (w : List WarmRow) (n : Nat),
      hotToWarmLoop noFault l h w n =
        (none, l.foldl (fun hh x => (HotMemory.remove x.key hh).2) h,
          l.foldl (fun ww x =>
            warm_store (warmRowOfEntry { x with tier := MemoryTier.Warm }) ww) w,
          n + l.length) := by
  induction l with
  | nil =>
    intro h w n
    simp [hotToWarmLoop]
  | cons e rest ih =>
    intro h w n
    rw [hotToWarmLoop, noFault_warmStore]
    dsimp only
    rw [ih]
    simp only [List.foldl_cons, List.length_cons, Prod.mk.injEq, true_and]
    omega

lemma warmToColdLoop_noFault (now : Int) (l : List TieredMemoryEntry) :
    ∀ (w : List WarmRow) (c : List ColdRow) (n : Nat),
      warmToColdLoop noFault now l w c n =
        (none, l.foldl (fun ww x => warm_delete x.key ww) w,
          l.foldl (fun cc x => cold_archive now x cc) c, n + l.length) := by
  induction l with
  | nil =>
    intro w c n
    simp [warmToColdLoop]
  | cons e rest ih =>
    intro w c n
    rw [warmToColdLoop, noFault_coldArchive, noFault_warmDelete]
    dsimp only
    rw [ih]
    simp only [List.foldl_cons, List.length_cons, Prod.mk.injEq, true_and]
    omega

lemma removeFold_cache (l : List TieredMemoryEntry) :
    ∀ h : HotMemory,
      (l.foldl (fun hh x => (HotMemory.remove x.key hh).2) h).cache =
        h.cache.filter (fun p => decide (p.1 ∉ l.map (fun x => x.key))) := by
  induction l with
  | nil =>
    intro h
    simp
  | cons e rest ih =>
    intro h
    rw [List.foldl_cons, ih, HotMemory.remove]
    dsimp only
    rw [mapErase, List.filter_filter]
    apply List.filter_congr
    intro p _
    simp [List.mem_cons, not_or, Bool.and_comm]

lemma deleteFold_rows (l : List TieredMemoryEntry) :
    ∀ w : List WarmRow,
      l.foldl (fun ww x => warm_delete x.key ww) w =
        w.filter (fun r => decide (r.key ∉ l.map (fun x => x.key))) := by
  induction l with
  | nil =>
    intro w
    simp
  | cons e rest ih =>
    intro w
    rw [List.foldl_cons, ih, warm_delete, List.filter_filter]
    apply List.filter_congr
    intro r _
    simp [List.mem_cons, not_or, Bool.and_comm]

lemma maintain_noFault_eq (now : Int) (st : TieredMemory) :
    TieredMemory.maintain noFault now st =
      (Except.ok
        { hot_to_warm_migrated := (HotMemory.get_entries_for_promotion now st.hot).length,
          warm_to_cold_migrated := (archiveList now st).length,
          cold_to_warm_promoted := 0, hot_evicted := 0,
          total_hot := (promoteFoldHot now st).count,
          total_warm := warm_count (afterWarm now st),
          total_cold := cold_count (afterCold now st) },
       { st with hot := promoteFoldHot now st, warm := afterWarm now st,
                 cold := afterCold now st }) := by
  rw [TieredMemory.maintain]
  rw [hotToWarmLoop_noFault]
  dsimp only
  rw [warmToColdLoop_noFault]
  dsimp only
  simp [promoteFoldHot, promoteFoldWarm, archiveList, afterWarm, afterCold]

lemma promotion_empty_after_maintain (now : Int) (st : TieredMemory)
    (hkc : keyConsistent st.hot) :
    HotMemory.get_entries_for_promotion now (promoteFoldHot now st) = [] := by
  rw [promoteFoldHot, HotMemory.get_entries_for_promotion, HotMemory.get_all,
    removeFold_cache, List.filter_eq_nil_iff]
  intro e he helig
  obtain ⟨p, hp, rfl⟩ := List.mem_map.mp he
  obtain ⟨hpc, hpk⟩ := List.mem_filter.mp hp
  rw [decide_eq_true_eq] at hpk
  apply hpk
  have hmem : p.2 ∈ HotMemory.get_entries_for_promotion now st.hot :=
    List.mem_filter.mpr ⟨List.mem_map.mpr ⟨p, hpc, rfl⟩, helig⟩
  have hk : p.2.key ∈ (HotMemory.get_entries_for_promotion now st.hot).map
      (fun x => x.key) := List.mem_map.mpr ⟨p.2, hmem, rfl⟩
  rw [hkc p hpc] at hk
  exact hk

lemma archival_empty_after_maintain (now : Int) (st : TieredMemory) :
    warm_archival_rows now (afterWarm now st) = [] := by
  rw [afterWarm, deleteFold_rows, warm_archival_rows, List.filter_eq_nil_iff]
  intro r hr hts
  obtain ⟨hrw, hrk⟩ := List.mem_filter.mp hr
  rw [decide_eq_true_eq] at hrk
  apply hrk
  have hmem : entryOfWarmRow r ∈ archiveList now st := by
    rw [archiveList, warm_get_entries_for_archival]
    exact List.mem_map.mpr ⟨r, List.mem_filter.mpr ⟨hrw, hts⟩, rfl⟩
  exact List.mem_map.mpr ⟨entryOfWarmRow r, hmem, rfl⟩

lemma maintain_noFault_zero (now : Int) (st : TieredMemory)
    (hp : HotMemory.get_entries_for_promotion now st.hot = [])
    (ha : warm_archival_rows now st.warm = []) :
    (TieredMemory.maintain noFault now st).1 = Except.ok
      { hot_to_warm_migrated := 0, warm_to_cold_migrated := 0,
        cold_to_warm_promoted := 0, hot_evicted := 0,
        total_hot := st.hot.count, total_warm := warm_count st.warm,
        total_cold := cold_count st.cold } := by
  rw [maintain_noFault_eq]
  simp [promoteFoldHot, promoteFoldWarm, archiveList, afterWarm, afterCold, hp,
    warm_get_entries_for_archival, ha]

lemma hotToWarmLoop_fail (env : DbEnv) (e : TieredMemoryEntry) (err : DbErr)
    (hfail : env.warmStoreFail (warmRowOfEntry { e with tier := MemoryTier.Warm }) =
      some err) (l₁ : List TieredMemoryEntry) :
    ∀ (l₂ : List TieredMemoryEntry) (h : HotMemory) (w : List WarmRow) (n : Nat),
      (∀ x ∈ l₁, env.warmStoreFail
        (warmRowOfEntry { x with tier := MemoryTier.Warm }) = none) →
      hotToWarmLoop env (l₁ ++ e :: l₂) h w n =
        (some err, l₁.foldl (fun hh x => (HotMemory.remove x.key hh).2) h,
          l₁.foldl (fun ww x =>
            warm_store (warmRowOfEntry { x with tier := MemoryTier.Warm }) ww) w,
          n + l₁.length) := by
  induction l₁ with
  | nil =>
    intro l₂ h w n _
    rw [List.nil_append, hotToWarmLoop, hfail]
    simp
  | cons x rest ih =>
    intro l₂ h w n hok
    rw [List.cons_append, hotToWarmLoop, hok x (List.mem_cons_self x rest)]
    dsimp only
    rw [ih l₂ _ _ _ (fun y hy => hok y (List.mem_cons_of_mem x hy))]
    simp only [List.foldl_cons, List.length_cons, Prod.mk.injEq, true_and]
    omega

/-- C10: every `Priority` round-trips through its display string via
`Priority::from_str`, and every string that is none of the four canonical
encodings parses to `Normal`, so priorities read back from the durable
tiers never fail. -/
theorem priority_string_round_trip :
    (∀ p : Priority, Priority.from_str p.toStr = p) ∧
    ∀ s : String, s ≠ "critical" → s ≠ "high" → s ≠ "normal" → s ≠ "low" →
      Priority.from_str s = Priority.Normal := by
  constructor
  · intro p
    cases p <;> rfl
  · intro s h1 h2 h3 h4
    simp [Priority.from_str, h1, h2, h3, h4]

/-- Witness for C10 at concrete inputs. -/
theorem priority_string_round_trip_witness :
    Priority.from_str (Priority.toStr .High) = .High ∧
    Priority.from_str "mystery" = .Normal :=
  ⟨priority_string_round_trip.1 .High,
   priority_string_round_trip.2 "mystery" (by decide) (by decide) (by decide)
     (by decide)⟩

/-- Counterexample for C2: under a policy with `hot_to_warm_days = 9`, the
8-day-old Normal entry is returned by `get_entries_for_promotion` even
though its age does not exceed the policy's threshold — the code ignores
the policy and uses a hard-coded 7-day cutoff. -/
theorem promotion_ignores_policy_counterexample :
    entryEightDaysNormal ∈ HotMemory.get_entries_for_promotion 0 hotEightDays ∧
    entryEightDaysNormal ∉ specPromotionEntries policyNineDays 0 hotEightDays := by
  decide

/-- C2 (amended): `get_entries_for_promotion` returns exactly the entries
whose age exceeds the hard-coded 7 days — not the policy's
`hot_to_warm_days` — and whose priority is not Critical; it coincides with
the spec's policy-driven predicate exactly when `hot_to_warm_days = 7`
(the default). -/
theorem promotion_filters_by_seven_days_not_policy (now : Int) (s : HotMemory) :
    (∀ e, e ∈ HotMemory.get_entries_for_promotion now s ↔
      e ∈ s.get_all ∧ 7 * daySecs < now - e.timestamp ∧
        e.priority ≠ Priority.Critical) ∧
    ∀ policy : MigrationPolicy, policy.hot_to_warm_days = 7 →
      HotMemory.get_entries_for_promotion now s = specPromotionEntries policy now s := by
  constructor
  · intro e
    simp [HotMemory.get_entries_for_promotion, should_promote_to_warm,
      List.mem_filter, and_assoc]
  · intro policy h
    simp [HotMemory.get_entries_for_promotion, specPromotionEntries,
      should_promote_to_warm, h]

/-- Witness for C2 (amended): under the default policy the code's result
and the spec's predicate agree, and the 8-day Normal entry is included. -/
theorem promotion_filters_by_seven_days_not_policy_witness :
    HotMemory.get_entries_for_promotion 0 hotEightDays =
      specPromotionEntries MigrationPolicy.defaultPolicy 0 hotEightDays ∧
    entryEightDaysNormal ∈ HotMemory.get_entries_for_promotion 0 hotEightDays ∧
    entryEightDaysCritical ∉ HotMemory.get_entries_for_promotion 0 hotEightDays :=
  ⟨(promotion_filters_by_seven_days_not_policy 0 hotEightDays).2
      MigrationPolicy.defaultPolicy rfl,
   ((promotion_filters_by_seven_days_not_policy 0 hotEightDays).1
      entryEightDaysNormal).mpr (by decide),
   fun h => by
    have := ((promotion_filters_by_seven_days_not_policy 0 hotEightDays).1
      entryEightDaysCritical).mp h
    exact absurd this.2.2 (by decide)⟩

/-- Counterexample for C3: a successful hot-tier read returns the entry
with `access_count` still 5 and `accessed_at` still 100, and leaves the
stored cache entries byte-for-byte unchanged — no read-time update, no
increment. -/
theorem hot_get_does_not_touch_entry_counterexample :
    ((HotMemory.get "k5" hotFiveReads).1).map
        (fun e => (e.access_count, e.accessed_at)) = some (5, 100) ∧
    ((HotMemory.get "k5" hotFiveReads).2).cache = hotFiveReads.cache := by
  decide

/-- C3 (amended): a successful hot read returns the stored entry unchanged
and modifies only the recency order, never `accessed_at` or
`access_count`; those fields are updated (to the write time, by one) only
by `remember` on a key already present in the hot tier. -/
theorem reads_leave_counters_unchanged :
    (∀ (k : String) (s : HotMemory) (e : TieredMemoryEntry),
      mapLookup k s.cache = some e →
      (HotMemory.get k s).1 = some e ∧ ((HotMemory.get k s).2).cache = s.cache) ∧
    ∀ (now : Int) (fid k v : String) (p : Priority) (st : TieredMemory)
      (e : TieredMemoryEntry), keyConsistent st.hot →
      mapLookup k st.hot.cache = some e →
      mapLookup k ((TieredMemory.remember now fid k v p st).hot.cache) =
        some { e with content := v, accessed_at := now,
                      access_count := e.access_count + 1 } := by
  constructor
  · intro k s e hhit
    rw [HotMemory.get, hhit]
    exact ⟨rfl, rfl⟩
  · intro now fid k v p st e hkc hhit
    have hkey : e.key = k := hkc (k, e) (mapLookup_mem hhit)
    rw [TieredMemory.remember]
    rw [HotMemory.get, hhit]
    simp only
    rw [HotMemory.get]
    simp only [hhit]
    rw [HotMemory.store]
    simp only
    rw [mapLookup]
    simp [hkey]

/-- Witness for C3 (amended) at the concrete five-read state. -/
theorem reads_leave_counters_unchanged_witness :
    ((HotMemory.get "k5" hotFiveReads).1 = some entryFiveReads ∧
      ((HotMemory.get "k5" hotFiveReads).2).cache = hotFiveReads.cache) ∧
    mapLookup "k5" ((TieredMemory.remember 200 "fid" "k5" "v2" .Normal
        { hot := hotFiveReads, warm := [], cold := [],
          policy := MigrationPolicy.defaultPolicy }).hot.cache) =
      some { entryFiveReads with content := "v2", accessed_at := 200,
                                 access_count := 6 } :=
  ⟨reads_leave_counters_unchanged.1 "k5" hotFiveReads entryFiveReads (by decide),
   reads_leave_counters_unchanged.2 200 "fid" "k5" "v2" .Normal
     { hot := hotFiveReads, warm := [], cold := [],
       policy := MigrationPolicy.defaultPolicy } entryFiveReads
     (by unfold keyConsistent; decide) (by decide)⟩

/-- Counterexample for C1: with capacity 0 the eviction loop exhausts the
(empty) recency queue and breaks, and `store` then inserts anyway, so the
hot tier holds 1 > 0 entries. -/
theorem store_capacity_zero_counterexample :
    HotMemory.count (HotMemory.store entryFiveReads (HotMemory.new 0)) = 1 := by
  decide

/-- C1 (amended): for every capacity C ≥ 1 and every sequence of hot-tier
operations (stores interleaved with gets and removes) starting from a
fresh tier, the count never exceeds C — `store` evicts least-recently-used
keys until below capacity before inserting.  (Capacity 0 is the sole
exception: `store` still inserts one entry after the eviction loop
exhausts the queue.) -/
theorem hot_capacity_invariant (C : Nat) (hC : 1 ≤ C) (ops : List HotOp) :
    HotMemory.count (runOps ops (HotMemory.new C)) ≤ C := by
  have h := runOps_inv C hC ops (HotMemory.new C)
    ⟨List.nodup_nil, List.nodup_nil, by simp [HotMemory.new]⟩
    (by simp [HotMemory.new]) rfl
  exact h.2.1

/-- Witness for C1 (amended): capacity 1, three stores and a get. -/
theorem hot_capacity_invariant_witness :
    HotMemory.count (runOps [HotOp.opStore entryFiveReads,
      HotOp.opStore entryEightDaysNormal, HotOp.opGet "k5",
      HotOp.opStore entryEightDaysCritical] (HotMemory.new 1)) ≤ 1 :=
  hot_capacity_invariant 1 (by decide) _

/-- C4: `remember(k, v, p)` immediately followed by `recall(k)` succeeds
and returns an entry whose content is `v`, for every key, content,
priority and facade state (whose hot cache maps keys consistently). -/
theorem remember_then_recall_round_trip
    (now : Int) (fid k v : String) (p : Priority) (st : TieredMemory)
    (hkc : keyConsistent st.hot) :
    ((TieredMemory.recall k (TieredMemory.remember now fid k v p st)).1).map
      TieredMemoryEntry.content = some v := by
  rw [TieredMemory.remember]
  cases hlk : mapLookup k st.hot.cache with
  | none =>
    rw [get_of_lookup_none hlk]
    dsimp only
    rw [TieredMemory.recall]
    dsimp only
    rw [get_of_lookup_some
      (mapLookup_store_key k (TieredMemoryEntry.new now fid k v p) st.hot rfl)]
    rfl
  | some e =>
    have hkey : e.key = k := hkc (k, e) (mapLookup_mem hlk)
    rw [get_of_lookup_some hlk]
    dsimp only
    have hlk2 : mapLookup k (HotMemory.mk st.hot.cache
        (orderErase k st.hot.access_order ++ [k]) st.hot.max_entries).cache =
        some e := hlk
    rw [get_of_lookup_some hlk2]
    dsimp only
    rw [TieredMemory.recall]
    dsimp only
    rw [get_of_lookup_some (mapLookup_store_key k
      { e with content := v, accessed_at := now, access_count := e.access_count + 1 }
      (HotMemory.mk st.hot.cache
        (orderErase k (orderErase k st.hot.access_order ++ [k]) ++ [k])
        st.hot.max_entries) hkey)]
    rfl

/-- Witness for C4 from the empty facade state. -/
theorem remember_then_recall_round_trip_witness :
    ((TieredMemory.recall "k" (TieredMemory.remember 0 "fid" "k" "v" .Normal
      { hot := HotMemory.new 1000, warm := [], cold := [],
        policy := MigrationPolicy.defaultPolicy })).1).map
      TieredMemoryEntry.content = some "v" :=
  remember_then_recall_round_trip 0 "fid" "k" "v" .Normal _
    (by unfold keyConsistent; decide)

/-- C5: with capacity 2, storing entries keyed k1, k2, k3 in order evicts
k1 (the least recently touched); if k1 is read via `get` between the
stores of k2 and k3, k2 is evicted instead, because `get` refreshes
recency. -/
theorem lru_eviction_capacity_two
    (e1 e2 e3 : TieredMemoryEntry) (k1 k2 k3 : String)
    (h1 : e1.key = k1) (h2 : e2.key = k2) (h3 : e3.key = k3)
    (h12 : k1 ≠ k2) (h13 : k1 ≠ k3) (h23 : k2 ≠ k3) :
    (mapLookup k1 (HotMemory.store e3 (HotMemory.store e2
        (HotMemory.store e1 (HotMemory.new 2)))).cache = none ∧
      mapLookup k2 (HotMemory.store e3 (HotMemory.store e2
        (HotMemory.store e1 (HotMemory.new 2)))).cache = some e2 ∧
      mapLookup k3 (HotMemory.store e3 (HotMemory.store e2
        (HotMemory.store e1 (HotMemory.new 2)))).cache = some e3) ∧
    (mapLookup k2 (HotMemory.store e3 ((HotMemory.get k1 (HotMemory.store e2
        (HotMemory.store e1 (HotMemory.new 2)))).2)).cache = none ∧
      mapLookup k1 (HotMemory.store e3 ((HotMemory.get k1 (HotMemory.store e2
        (HotMemory.store e1 (HotMemory.new 2)))).2)).cache = some e1 ∧
      mapLookup k3 (HotMemory.store e3 ((HotMemory.get k1 (HotMemory.store e2
        (HotMemory.store e1 (HotMemory.new 2)))).2)).cache = some e3) := by
  simp only [HotMemory.new, HotMemory.store, HotMemory.get, evictLoop, mapErase,
    orderErase, mapLookup, h1, h2, h3]
  simp [h12, h13, h23, Ne.symm h12, Ne.symm h13, Ne.symm h23, mapLookup,
    evictLoop, mapErase, orderErase]

/-- Witness for C5 with the concrete keys k1, k2, k3. -/
theorem lru_eviction_capacity_two_witness :
    mapLookup "k1" (HotMemory.store entryK3 (HotMemory.store entryK2
      (HotMemory.store entryK1 (HotMemory.new 2)))).cache = none ∧
    mapLookup "k2" (HotMemory.store entryK3 ((HotMemory.get "k1"
      (HotMemory.store entryK2 (HotMemory.store entryK1
        (HotMemory.new 2)))).2)).cache = none :=
  ⟨(lru_eviction_capacity_two entryK1 entryK2 entryK3 "k1" "k2" "k3" rfl rfl rfl
      (by decide) (by decide) (by decide)).1.1,
   (lru_eviction_capacity_two entryK1 entryK2 entryK3 "k1" "k2" "k3" rfl rfl rfl
      (by decide) (by decide) (by decide)).2.1⟩

/-- C6: on a hot miss, `recall` promotes a warm hit (or, on a warm miss, a
cold hit) by returning the found entry with its tier relabelled Hot and
storing that copy into the hot tier; the warm and cold stores are left
completely unchanged — nothing is deleted from the source tier. -/
theorem recall_promotes_without_deleting (k : String) (st : TieredMemory)
    (hmiss : mapLookup k st.hot.cache = none) :
    (∀ e, warm_get k st.warm = some e →
      TieredMemory.recall k st =
        (some { e with tier := MemoryTier.Hot },
         { st with hot := HotMemory.store { e with tier := MemoryTier.Hot } st.hot })) ∧
    (warm_get k st.warm = none → ∀ e, cold_get k st.cold = some e →
      TieredMemory.recall k st =
        (some { e with tier := MemoryTier.Hot },
         { st with hot := HotMemory.store { e with tier := MemoryTier.Hot } st.hot })) := by
  constructor
  · intro e hwarm
    rw [TieredMemory.recall, get_of_lookup_none hmiss]
    dsimp only
    rw [hwarm]
  · intro hwmiss e hcold
    rw [TieredMemory.recall, get_of_lookup_none hmiss]
    dsimp only
    rw [hwmiss, hcold]

/-- Witness for C6: promoting the concrete warm entry and, for a key
present only in cold, the concrete cold entry. -/
theorem recall_promotes_without_deleting_witness :
    TieredMemory.recall "kw" tieredWarmCold =
      (some promotedKW,
       { tieredWarmCold with hot := HotMemory.store promotedKW tieredWarmCold.hot }) ∧
    TieredMemory.recall "kc" tieredWarmCold =
      (some promotedKC,
       { tieredWarmCold with hot := HotMemory.store promotedKC tieredWarmCold.hot }) :=
  ⟨(recall_promotes_without_deleting "kw" tieredWarmCold (by decide)).1
      (entryOfWarmRow warmRowKW) (by decide),
   (recall_promotes_without_deleting "kc" tieredWarmCold (by decide)).2
      (by decide) (entryOfColdRow coldRowKC) (by decide)⟩

/-- C7: the facade search never returns more than `limit` entries, and the
colder tiers are consulted only while fewer than `limit` results have
accumulated — in particular if the hot tier alone already yields `limit`
results, the result is exactly the hot results and warm/cold are never
queried. -/
theorem search_respects_limit (q : String) (limit : Nat) (st : TieredMemory) :
    (TieredMemory.search q limit st).length ≤ limit ∧
    (limit ≤ (HotMemory.search q limit st.hot).length →
      TieredMemory.search q limit st = HotMemory.search q limit st.hot) := by
  have hhot : (HotMemory.search q limit st.hot).length ≤ limit := by
    rw [HotMemory.search]
    exact List.length_take_le _ _
  constructor
  · rw [TieredMemory.search]
    by_cases hw : (HotMemory.search q limit st.hot).length < limit
    · rw [if_pos hw]
      have hwarm : (warm_search q (limit - (HotMemory.search q limit st.hot).length)
          st.warm).length ≤ limit - (HotMemory.search q limit st.hot).length := by
        rw [warm_search, List.length_map]
        exact List.length_take_le _ _
      by_cases hc : (HotMemory.search q limit st.hot ++
          warm_search q (limit - (HotMemory.search q limit st.hot).length)
            st.warm).length < limit
      · rw [if_pos hc]
        have hcold : (cold_search q (limit - (HotMemory.search q limit st.hot ++
            warm_search q (limit - (HotMemory.search q limit st.hot).length)
              st.warm).length) st.cold).length ≤
            limit - (HotMemory.search q limit st.hot ++
            warm_search q (limit - (HotMemory.search q limit st.hot).length)
              st.warm).length := by
          rw [cold_search, List.length_map]
          exact List.length_take_le _ _
        simp only [List.length_append] at hc hcold ⊢
        omega
      · rw [if_neg hc]
        simp only [List.length_append] at hc ⊢
        omega
    · rw [if_neg hw]
      rw [if_neg (by omega)]
      exact hhot
  · intro hge
    rw [TieredMemory.search]
    have h1 : ¬ (HotMemory.search q limit st.hot).length < limit := by omega
    rw [if_neg h1, if_neg h1]

/-- Witness for C7 at limit 1 with two hot matches. -/
theorem search_respects_limit_witness :
    (TieredMemory.search "a" 1 tieredTwoMatches).length ≤ 1 ∧
    TieredMemory.search "a" 1 tieredTwoMatches =
      HotMemory.search "a" 1 tieredTwoMatches.hot :=
  ⟨(search_respects_limit "a" 1 tieredTwoMatches).1,
   (search_respects_limit "a" 1 tieredTwoMatches).2 (by decide)⟩

/-- C8: running `maintain` twice with no intervening writes and no advance
of time yields zero `hot_to_warm_migrated` and zero
`warm_to_cold_migrated` on the second run — the first run removes every
promotion-eligible hot entry and archives every archival-eligible warm
row, leaving nothing for the second pass. -/
theorem maintain_twice_migrates_nothing (now : Int) (st : TieredMemory)
    (hkc : keyConsistent st.hot) (r : MaintenanceReport)
    (hr : (TieredMemory.maintain noFault now
        (TieredMemory.maintain noFault now st).2).1 = Except.ok r) :
    r.hot_to_warm_migrated = 0 ∧ r.warm_to_cold_migrated = 0 := by
  have hstate : (TieredMemory.maintain noFault now st).2 =
      { st with hot := promoteFoldHot now st, warm := afterWarm now st,
                cold := afterCold now st } := by
    rw [maintain_noFault_eq]
  rw [hstate] at hr
  have hz := maintain_noFault_zero now
    { st with hot := promoteFoldHot now st, warm := afterWarm now st,
              cold := afterCold now st }
    (promotion_empty_after_maintain now st hkc)
    (archival_empty_after_maintain now st)
  rw [hz] at hr
  injection hr with h
  rw [← h]
  exact ⟨rfl, rfl⟩

/-- Witness for C8 on a state with one promotion-eligible hot entry and
one archival-eligible warm row. -/
theorem maintain_twice_migrates_nothing_witness :
    secondMaintainReport.hot_to_warm_migrated = 0 ∧
    secondMaintainReport.warm_to_cold_migrated = 0 :=
  maintain_twice_migrates_nothing 0 tieredForMaintain
    (by unfold keyConsistent; decide) secondMaintainReport (by rfl)

/-- C9: if the warm store of some promotion-eligible entry fails during
`maintain`, the facade returns that error immediately, the warm→cold phase
never runs (cold is untouched), and the migrations already performed —
hot-tier removals and warm-tier writes for every entry before the failing
one — stay applied, with nothing rolled back.  The failing entry itself is
left unmigrated (its warm store failed before its hot removal). -/
theorem maintain_propagates_first_store_failure
    (env : DbEnv) (now : Int) (st : TieredMemory)
    (l₁ l₂ : List TieredMemoryEntry) (e : TieredMemoryEntry) (err : DbErr)
    (hsplit : HotMemory.get_entries_for_promotion now st.hot = l₁ ++ e :: l₂)
    (hok : ∀ x ∈ l₁, env.warmStoreFail
      (warmRowOfEntry { x with tier := MemoryTier.Warm }) = none)
    (hfail : env.warmStoreFail (warmRowOfEntry { e with tier := MemoryTier.Warm }) =
      some err) :
    TieredMemory.maintain env now st =
      (Except.error err,
       { st with
          hot := l₁.foldl (fun hh x => (HotMemory.remove x.key hh).2) st.hot,
          warm := l₁.foldl (fun ww x =>
            warm_store (warmRowOfEntry { x with tier := MemoryTier.Warm }) ww)
            st.warm }) ∧
    (TieredMemory.maintain env now st).2.cold = st.cold ∧
    (TieredMemory.maintain env now st).2.hot.cache =
      st.hot.cache.filter (fun p => decide (p.1 ∉ l₁.map (fun x => x.key))) := by
  have hmain : TieredMemory.maintain env now st =
      (Except.error err,
       { st with
          hot := l₁.foldl (fun hh x => (HotMemory.remove x.key hh).2) st.hot,
          warm := l₁.foldl (fun ww x =>
            warm_store (warmRowOfEntry { x with tier := MemoryTier.Warm }) ww)
            st.warm }) := by
    rw [TieredMemory.maintain, hsplit,
      hotToWarmLoop_fail env e err hfail l₁ l₂ st.hot st.warm 0 hok]
  refine ⟨hmain, ?_, ?_⟩
  · rw [hmain]
  · rw [hmain]
    exact removeFold_cache l₁ st.hot

/-- Witness for C9: the first eligible entry migrates, the second's warm
store fails, the error is returned and cold is untouched. -/
theorem maintain_propagates_first_store_failure_witness :
    (TieredMemory.maintain failOnKlEnv 0 tieredTwoEligible).1 =
      Except.error { message := "disk full" } ∧
    (TieredMemory.maintain failOnKlEnv 0 tieredTwoEligible).2.cold =
      tieredTwoEligible.cold :=
  ⟨by rw [(maintain_propagates_first_store_failure failOnKlEnv 0 tieredTwoEligible
      [entryEightDaysNormal] [] entryEightDaysLow { message := "disk full" }
      (by decide) (by decide) (by decide)).1],
   (maintain_propagates_first_store_failure failOnKlEnv 0 tieredTwoEligible
      [entryEightDaysNormal] [] entryEightDaysLow { message := "disk full" }
      (by decide) (by decide) (by decide)).2.1⟩
